import Mathlib

/-!
Verification of the response formatting / export pipeline of the
AI-Assistant chatbot repository.  Python strings are modelled as `List Char`;
the regex operations of `src/util/response_formatter.py` are embedded as
executable scanning functions with the exact leftmost / non-greedy semantics
of `re.findall` / `re.sub` on the concrete patterns used by the code.
-/


/-- The literal `<think>` delimiter used by `ThinkingResponseFormatter`. -/
def openTag : List Char := "<think>".data

/-- The literal `</think>` delimiter used by `ThinkingResponseFormatter`. -/
def closeTag : List Char := "</think>".data

/-- ASCII whitespace recognised by Python `str.strip` / `str.split`
(the embedding restricts itself to the ASCII alphabet). -/
def isPySpace (c : Char) : Bool :=
  c = ' ' || c = '\t' || c = '\n' || c = '\r' || c = '\x0b' || c = '\x0c'

/-- Split a string at the first (leftmost) occurrence of `pat`:
returns the part before the occurrence and the part after it.
`none` when `pat` does not occur.  This is the primitive with which the
regex scans of the formatter are expressed. -/
def splitFirst (pat : List Char) : List Char → Option (List Char × List Char)
  | [] => if pat.isPrefixOf ([] : List Char) then some ([], []) else none
  | c :: cs =>
    if pat.isPrefixOf (c :: cs) then some ([], (c :: cs).drop pat.length)
    else
      match splitFirst pat cs with
      | some (pre, post) => some (c :: pre, post)
      | none => none

/-- One scan of the findall of pattern `<think>(.*?)</think>` (DOTALL)
together with the sub of the same pattern: returns the inner texts of the
matches and the input with every matched span deleted.  The regex matches
the leftmost `<think>` and pairs it with the first `</think>` that follows
it (non-greedy `.*?` with DOTALL), then resumes after the match; `fuel`
bounds the number of matches (each match consumes at least 15 characters,
so `s.length` fuel is always enough). -/
def extractThinkAux : Nat → List Char → List (List Char) × List Char
  | 0, s => ([], s)
  | fuel + 1, s =>
    match splitFirst openTag s with
    | none => ([], s)
    | some (pre, rest) =>
      match splitFirst closeTag rest with
      | none => ([], s)
      | some (inner, post) =>
        let r := extractThinkAux fuel post
        (inner :: r.1, pre ++ r.2)

/-- `re.findall` + `re.sub` of the `<think>(.*?)</think>` pattern. -/
def extractThink (s : List Char) : List (List Char) × List Char :=
  extractThinkAux s.length s

/-- The regex substitution deleting the pattern `</?think>`: delete every
leftmost, non-overlapping occurrence of `<think>` or `</think>` (at a given position at most one of
the two alternatives can match, so the scan below is exactly the regex
substitution).  `fuel ≥ s.length` makes the scan total. -/
def removeTagsAux : Nat → List Char → List Char
  | 0, s => s
  | fuel + 1, s =>
    match s with
    | [] => []
    | c :: cs =>
      if closeTag.isPrefixOf (c :: cs) then removeTagsAux fuel (cs.drop 7)
      else if openTag.isPrefixOf (c :: cs) then removeTagsAux fuel (cs.drop 6)
      else c :: removeTagsAux fuel cs

/-- The cleanup pass of `format_response` deleting stray think tags. -/
def removeTags (s : List Char) : List Char :=
  removeTagsAux s.length s

/-- Python `str.strip()` (restricted to ASCII whitespace): drop whitespace
from both ends. -/
def stripWS (s : List Char) : List Char :=
  (((s.dropWhile isPySpace).reverse.dropWhile isPySpace)).reverse

/-- Result dictionary of `ThinkingResponseFormatter.format_response`. -/
structure FormattedResponse where
  thinking : List (List Char)
  main_response : List Char
  deriving Repr, DecidableEq

/-- `ThinkingResponseFormatter.format_response` from
`src/util/response_formatter.py`: extract the `<think>...</think>` blocks,
delete the matched spans, delete remaining stray tags, trim whitespace. -/
def format_response (response : List Char) : FormattedResponse :=
  let r := extractThink response
  { thinking := r.1, main_response := stripWS (removeTags r.2) }

/-- `pat` has no nontrivial border: no proper nonempty suffix of `pat` is
also a prefix of `pat`.  Both concrete delimiters satisfy this, which is
what makes occurrences unable to straddle a delimiter boundary. -/
def borderFree (pat : List Char) : Prop :=
  ∀ k, k < pat.length → 0 < k → pat.drop (pat.length - k) ≠ pat.take k

instance (pat : List Char) : Decidable (borderFree pat) :=
  inferInstanceAs (Decidable (∀ k, k < pat.length → 0 < k →
    pat.drop (pat.length - k) ≠ pat.take k))

/-- A string is free of both think delimiters. -/
def tagFree (s : List Char) : Prop :=
  ¬ openTag <:+: s ∧ ¬ closeTag <:+: s

instance (s : List Char) : Decidable (tagFree s) :=
  inferInstanceAs (Decidable (¬ openTag <:+: s ∧ ¬ closeTag <:+: s))

/-- Build a string with `n` well-formed, non-nested think pairs: each list
entry is a (gap, inner-text) pair, followed by a final tail.  The string is
`gap0 <think>inner0</think> gap1 <think>inner1</think> ... tail`. -/
def assemble : List (List Char × List Char) → List Char → List Char
  | [], tail => tail
  | (g, t) :: rest, tail => g ++ (openTag ++ (t ++ (closeTag ++ assemble rest tail)))

/-- The concatenation of the inter-pair gaps and the tail of an
`assemble` decomposition: this is exactly what survives span removal. -/
def gapsJoin : List (List Char × List Char) → List Char → List Char
  | [], tail => tail
  | (g, _) :: rest, tail => g ++ gapsJoin rest tail

/-- Python `str.split()` with no separator: split on runs of ASCII
whitespace, dropping empty tokens.  `ResponseStatistics.get_word_count`
is `len(response.split())`. -/
def pySplitAux : Nat → List Char → List (List Char)
  | 0, _ => []
  | _ + 1, [] => []
  | f + 1, c :: cs =>
    if isPySpace c then pySplitAux f cs
    else (c :: cs.takeWhile (fun x => !isPySpace x)) ::
      pySplitAux f (cs.dropWhile (fun x => !isPySpace x))

/-- Python `str.split()` (no separator). -/
def pySplit (s : List Char) : List (List Char) := pySplitAux s.length s

/-- The dictionary returned by `ResponseStatistics.get_statistics`. -/
structure Statistics where
  word_count : Nat
  character_count : Nat
  deriving Repr, DecidableEq

/-- `ResponseStatistics.get_statistics` from
`src/util/response_formatter.py`: word count is `len(response.split())`,
character count is `len(response)`. -/
def get_statistics (response : List Char) : Statistics :=
  { word_count := (pySplit response).length, character_count := response.length }

/-- Result of `ResponseProcessor.process_response`: the formatted response
plus the statistics of the original raw response. -/
structure ProcessedResponse where
  thinking : List (List Char)
  main_response : List Char
  statistics : Statistics
  deriving Repr, DecidableEq

/-- `ResponseProcessor.process_response` with the default
`ThinkingResponseFormatter`: format, then attach statistics computed on
the raw input (not the cleaned main text). -/
def process_response (response : List Char) : ProcessedResponse :=
  let f := format_response response
  { thinking := f.thinking, main_response := f.main_response,
    statistics := get_statistics response }

/-- Specification-side token count: the number of positions that start a
maximal whitespace-free run.  The boolean argument records whether the
previous character was whitespace (the start of the string counts as
whitespace). -/
def countTokens : Bool → List Char → Nat
  | _, [] => 0
  | prevSpace, c :: cs =>
    (if prevSpace && !isPySpace c then 1 else 0) + countTokens (isPySpace c) cs

/-- A parsed HTML node as produced by BeautifulSoup from the output of the
markdown library (attribute-free view: tag name and children, or a text
node). -/
inductive HNode where
  | el (name : List Char) (children : List HNode)
  | txt (content : List Char)

/-- `element.get_text()` over a forest: concatenation of all descendant
text. -/
def getTexts : List HNode → List Char
  | [] => []
  | HNode.txt s :: ns => s ++ getTexts ns
  | HNode.el _ cs :: ns => getTexts cs ++ getTexts ns

/-- `element.get_text()` of a single node. -/
def getText (n : HNode) : List Char :=
  match n with
  | HNode.txt s => s
  | HNode.el _ cs => getTexts cs

/-- `str(element)` over a forest of attribute-free nodes. -/
def serializeList : List HNode → List Char
  | [] => []
  | HNode.txt s :: ns => s ++ serializeList ns
  | HNode.el name cs :: ns =>
    "<".data ++ name ++ ">".data ++ serializeList cs ++
      "</".data ++ name ++ ">".data ++ serializeList ns

/-- `str(element)` of a single node. -/
def serialize (n : HNode) : List Char :=
  match n with
  | HNode.txt s => s
  | HNode.el name cs =>
    "<".data ++ name ++ ">".data ++ serializeList cs ++ "</".data ++ name ++ ">".data

/-- Python `str.replace(pat, rep)`: replace every leftmost,
non-overlapping occurrence, scanning left to right. -/
def replaceAllAux : Nat → List Char → List Char → List Char → List Char
  | 0, _, _, s => s
  | f + 1, pat, rep, s =>
    match s with
    | [] => []
    | c :: cs =>
      if pat.isPrefixOf (c :: cs) then
        rep ++ replaceAllAux f pat rep ((c :: cs).drop pat.length)
      else c :: replaceAllAux f pat rep cs

/-- Python `s.replace(pat, rep)` (for nonempty `pat`). -/
def replaceAll (s pat rep : List Char) : List Char :=
  replaceAllAux s.length pat rep s

/-- Style names from `StyleManager` / `getSampleStyleSheet`. -/
inductive StyleTag where
  | title | heading1 | heading2 | heading3 | body | codeStyle | quote | normal
  deriving Repr, DecidableEq

/-- A ReportLab flowable as built by `MarkdownToPDFGenerator`. -/
inductive PdfElem where
  | paragraph (text : List Char) (style : StyleTag)
  | preformatted (text : List Char) (style : StyleTag)
  | spacer (w h : Nat)
  deriving Repr, DecidableEq

/-- A single-quote character (used in the Courier font markup). -/
def squote : Char := Char.ofNat 39

/-- The `<font face=...Courier...>` wrapper used for inline code spans. -/
def courierWrap (code : List Char) : List Char :=
  "<font face=".data ++ [squote] ++ "Courier".data ++ [squote] ++ ">".data ++
    code ++ "</font>".data

/-- The paragraph-branch text of `_process_html_elements`:
`str(element)` with `<p>`/`</p>` removed and `strong`/`em` tags replaced
by `b`/`i`. -/
def processParagraphText (element : HNode) : List Char :=
  let t0 := serialize element
  let t1 := replaceAll t0 "<p>".data []
  let t2 := replaceAll t1 "</p>".data []
  let t3 := replaceAll t2 "<strong>".data "<b>".data
  let t4 := replaceAll t3 "</strong>".data "</b>".data
  let t5 := replaceAll t4 "<em>".data "<i>".data
  replaceAll t5 "</em>".data "</i>".data

/-- The tag names searched by `soup.find_all([...])` in
`_process_html_elements`. -/
def targetNames : List (List Char) :=
  ["h1".data, "h2".data, "h3".data, "p".data, "pre".data, "code".data,
   "blockquote".data, "ul".data, "ol".data, "li".data, "table".data,
   "strong".data, "em".data]

/-- The find_all for `li` on an element: all descendant `li` elements in document
order. -/
def findLis : List HNode → List HNode
  | [] => []
  | HNode.txt _ :: ns => findLis ns
  | HNode.el name cs :: ns =>
    (if name = "li".data then [HNode.el name cs] else []) ++ findLis cs ++ findLis ns

/-- The dispatch body of the `for element in soup.find_all(...)` loop of
`_process_html_elements`: one iteration for an element with the given
parent tag name. -/
def processElement (parent name : List Char) (children : List HNode) : List PdfElem :=
  if name = "h1".data then [.paragraph (getTexts children) .heading1]
  else if name = "h2".data then [.paragraph (getTexts children) .heading2]
  else if name = "h3".data then [.paragraph (getTexts children) .heading3]
  else if name = "p".data then
    [.paragraph (processParagraphText (HNode.el name children)) .body]
  else if name = "pre".data then [.preformatted (getTexts children) .codeStyle]
  else if name = "code".data then
    (if parent ≠ "pre".data then [.paragraph (courierWrap (getTexts children)) .body]
     else [])
  else if name = "blockquote".data then [.paragraph (getTexts children) .quote]
  else if name = "ul".data then
    ((findLis children).map (fun li => PdfElem.paragraph ("• ".data ++ getText li) .body))
      ++ [.spacer 1 6]
  else if name = "ol".data then
    ((findLis children).map (fun li => PdfElem.paragraph ("1. ".data ++ getText li) .body))
      ++ [.spacer 1 6]
  else []

/-- The full `for element in soup.find_all([...])` loop: elements are
visited in document (preorder) order; each target-named element is
dispatched with the tag name of its parent available. -/
def processAll (parent : List Char) : List HNode → List PdfElem
  | [] => []
  | HNode.txt _ :: ns => processAll parent ns
  | HNode.el name cs :: ns =>
    (if name ∈ targetNames then processElement parent name cs else []) ++
      processAll name cs ++ processAll parent ns

/-- `MarkdownToPDFGenerator._process_html_elements`: top-level nodes have
the document root as parent. -/
def process_html_elements (soup : List HNode) : List PdfElem :=
  processAll "[document]".data soup

/-- `MarkdownToPDFGenerator._add_header`: title, spacer, three metadata
paragraphs, spacer — six flowables. -/
def add_header (now question model_name : List Char) : List PdfElem :=
  [.paragraph "AI Assistant Response".data .title,
   .spacer 1 20,
   .paragraph ("<b>Generated:</b> ".data ++ now) .body,
   .paragraph ("<b>Model:</b> ".data ++ model_name) .body,
   .paragraph ("<b>Question:</b> ".data ++ question) .body,
   .spacer 1 20]

/-- Python `s.split(sep)` for a nonempty separator: split at every
leftmost, non-overlapping occurrence (no run collapsing). -/
def splitSepAux : Nat → List Char → List Char → List (List Char)
  | 0, _, s => [s]
  | f + 1, sep, s =>
    match splitFirst sep s with
    | none => [s]
    | some (pre, post) => pre :: splitSepAux f sep post

/-- Python `s.split(sep)`. -/
def splitSep (sep s : List Char) : List (List Char) := splitSepAux s.length sep s

/-- The per-paragraph emphasis conversion of `_process_raw_markdown`:
note that the first `replace` already consumes every `**`, so the closing
`</b>`/`</i>` replacements never fire. -/
def fixEmphasis (para : List Char) : List Char :=
  let t1 := replaceAll para "**".data "<b>".data
  let t2 := replaceAll t1 "**".data "</b>".data
  let t3 := replaceAll t2 "*".data "<i>".data
  replaceAll t3 "*".data "</i>".data

/-- `MarkdownToPDFGenerator._process_raw_markdown`: split on blank lines,
keep the segments with non-blank content, emit one body paragraph each. -/
def process_raw_markdown (markdown_content : List Char) : List PdfElem :=
  ((splitSep "\n\n".data markdown_content).filter
      (fun para => !(stripWS para).isEmpty)).map
    (fun para => PdfElem.paragraph (fixEmphasis para) .body)

/-- `MarkdownToPDFGenerator._build_story`: header plus processed HTML
elements; if the story has at most 5 elements the raw-markdown fallback is
appended.  The markdown-to-HTML conversion itself is the external
`markdown` library, so the parsed soup is a parameter. -/
def build_story (now : List Char) (soup : List HNode)
    (markdown_content question model_name : List Char) : List PdfElem :=
  let story := add_header now question model_name ++ process_html_elements soup
  if story.length ≤ 5 then story ++ process_raw_markdown markdown_content else story

/-- Modelled from the spec: the ReportLab document build
(`SimpleDocTemplate.build`) is external library code, not part of this
repository.  Per the PDF Exporter contract of the spec it produces a
complete byte sequence beginning with a recognizable document-format
signature in which the text of every flowable is laid out; it is modelled
as a total rendering concatenating the signature, the text of each element
and a trailer. -/
def docBuild (story : List PdfElem) : List Char :=
  "%PDF-".data ++
    (story.map (fun e =>
      match e with
      | .paragraph t _ => t ++ ['\n']
      | .preformatted t _ => t ++ ['\n']
      | .spacer _ _ => [])).flatten ++ "%%EOF".data

/-- `MarkdownToPDFGenerator._create_fallback_pdf`: the fixed seven-element
story built when the structured export path fails. -/
def create_fallback_pdf (markdown_content question model_name : List Char) : List Char :=
  docBuild
    [.paragraph "AI Assistant Response".data .title,
     .spacer 1 20,
     .paragraph ("Model: ".data ++ model_name) .normal,
     .paragraph ("Question: ".data ++ question) .normal,
     .spacer 1 20,
     .paragraph "Response:".data .heading2,
     .paragraph markdown_content .normal]

/-- `MarkdownToPDFGenerator.generate_pdf`: build the structured story and
render it; if anything in the structured path raises (`structuredFails`),
fall back to `_create_fallback_pdf`. -/
def generate_pdf (structuredFails : Bool) (now : List Char) (soup : List HNode)
    (markdown_content question model_name : List Char) : List Char :=
  if structuredFails then create_fallback_pdf markdown_content question model_name
  else docBuild (build_story now soup markdown_content question model_name)

/-- A decoded JSON value as produced by `response.json()` (numbers
restricted to integers for the shallow embedding). -/
inductive JValue where
  | null
  | bool (b : Bool)
  | num (n : Int)
  | str (s : List Char)
  | arr (elems : List JValue)
  | obj (fields : List (List Char × JValue))

mutual

/-- Python repr of a decoded JSON value (modelled for strings without
embedded quotes; dictionaries and lists render Python-style). -/
def pyRepr : JValue → List Char
  | .null => "None".data
  | .bool true => "True".data
  | .bool false => "False".data
  | .num n => (toString n).data
  | .str s => [squote] ++ s ++ [squote]
  | .arr es => "[".data ++ pyReprList es ++ "]".data
  | .obj fs => "\x7b".data ++ pyReprFields fs ++ "\x7d".data

/-- Comma-separated reprs of a list of values. -/
def pyReprList : List JValue → List Char
  | [] => []
  | [e] => pyRepr e
  | e :: es => pyRepr e ++ ", ".data ++ pyReprList es

/-- Comma-separated reprs of dictionary entries. -/
def pyReprFields : List (List Char × JValue) → List Char
  | [] => []
  | [(k, v)] => [squote] ++ k ++ [squote] ++ ": ".data ++ pyRepr v
  | (k, v) :: fs =>
    [squote] ++ k ++ [squote] ++ ": ".data ++ pyRepr v ++ ", ".data ++ pyReprFields fs

end

/-- Python `str()` of a decoded JSON value: a string is returned as
itself, anything else by its repr. -/
def pyStrOf : JValue → List Char
  | .str s => s
  | v => pyRepr v

/-- Dictionary key lookup (JSON objects modelled with distinct keys). -/
def lookupField : List (List Char × JValue) → List Char → Option JValue
  | [], _ => none
  | (k, v) :: fs, key => if k = key then some v else lookupField fs key

/-- `BaseAPIClient._handle_api_response`: if the payload is a dictionary
containing an `output` key, return that value (as-is when a string,
via `str()` otherwise); for any other payload shape return `str()` of the
whole payload. -/
def handle_api_response (response_data : JValue) : List Char :=
  match response_data with
  | .obj fs =>
    match lookupField fs "output".data with
    | some (.str s) => s
    | some v => pyStrOf v
    | none => pyStrOf (.obj fs)
  | v => pyStrOf v

/-- The exceptions raised by the request pipeline inside `get_response`
(`raise_for_status` turns a non-2xx status into an HTTPError carrying the
response; `response.json()` on a non-JSON body raises a JSONDecodeError,
which is a RequestException). -/
inductive ReqExn where
  | connectionError
  | timeout
  | httpError (status : Nat) (body : Option JValue)
  | jsonError
  | otherError

/-- Exceptions that can escape `get_response` itself. -/
inductive PyExn where
  | jsonDecodeError
  | attributeError
  deriving Repr, DecidableEq

/-- Outcome of the `requests.post` call: a 2xx response with its decoded
body (`none` when the body is not valid JSON), or an exception. -/
inductive PostOutcome where
  | success (body : Option JValue)
  | exn (e : ReqExn)

/-- `BaseAPIClient._handle_request_errors` (the streamlit error display is
modelled as a no-op).  On an HTTPError with status 500 the handler itself
evaluates `e.response.json().get(...)`, which raises a JSONDecodeError
when the 500 body is not JSON and an AttributeError when it is JSON but
not an object. -/
def handle_request_errors (e : ReqExn) : Except PyExn Unit :=
  match e with
  | .httpError 500 body =>
    match body with
    | none => .error .jsonDecodeError
    | some (.obj _) => .ok ()
    | some _ => .error .attributeError
  | _ => .ok ()

/-- `CloudAPIClient.get_response`: on success decode the payload and hand
it to `_handle_api_response`; on any exception run
`_handle_request_errors` and return None — unless the handler itself
raises, in which case the exception escapes. -/
def cloud_get_response (outcome : PostOutcome) : Except PyExn (Option (List Char)) :=
  match outcome with
  | .success (some payload) => .ok (some (handle_api_response payload))
  | .success none =>
    match handle_request_errors .jsonError with
    | .ok _ => .ok none
    | .error e => .error e
  | .exn e =>
    match handle_request_errors e with
    | .ok _ => .ok none
    | .error e' => .error e'

/-- `LocalAPIClient.get_response`: like the cloud client, but HTTPError
has a dedicated branch that additionally calls `.lower()` on the `detail`
field of a 500 body — raising an AttributeError when `detail` is not a
string. -/
def local_get_response (outcome : PostOutcome) : Except PyExn (Option (List Char)) :=
  match outcome with
  | .success (some payload) => .ok (some (handle_api_response payload))
  | .success none =>
    match handle_request_errors .jsonError with
    | .ok _ => .ok none
    | .error e => .error e
  | .exn (.httpError 500 body) =>
    match body with
    | none => .error .jsonDecodeError
    | some (.obj fs) =>
      match (lookupField fs "detail".data).getD (.str "Unknown error".data) with
      | .str _ => .ok none
      | _ => .error .attributeError
    | some _ => .error .attributeError
  | .exn (.httpError _ _) => .ok none
  | .exn e =>
    match handle_request_errors e with
    | .ok _ => .ok none
    | .error e' => .error e'

-- sanity checks (concrete evaluations of the embedding)
example : format_response "a<think>x</think>b".data =
    { thinking := ["x".data], main_response := "ab".data } := by decide

example : format_response "<th<think>ink>".data =
    { thinking := [], main_response := "<think>".data } := by decide

example : format_response "a</think>b".data =
    { thinking := [], main_response := "ab".data } := by decide

example : format_response " hi ".data =
    { thinking := [], main_response := "hi".data } := by decide

example : borderFree openTag := by decide

example : borderFree closeTag := by decide

theorem pfx_iff_isPrefixOf : ∀ (l₁ l₂ : List Char), l₁.isPrefixOf l₂ = true ↔ l₁ <+: l₂ := by
  intro l₁
  induction l₁ with
  | nil => intro l₂; simp [List.isPrefixOf]
  | cons a l ih =>
    intro l₂
    cases l₂ with
    | nil => simp [List.isPrefixOf]
    | cons b m => simp [List.isPrefixOf, List.cons_prefix_cons, ih]

theorem pfx_of_take (n : Nat) (l : List Char) : l.take n <+: l :=
  ⟨l.drop n, List.take_append_drop n l⟩

theorem infix_of_pfx {l₁ l₂ : List Char} (h : l₁ <+: l₂) : l₁ <:+: l₂ := by
  obtain ⟨t, ht⟩ := h
  exact ⟨[], t, by simp [ht]⟩

theorem infix_of_sfx {l₁ l₂ : List Char} (h : l₁ <:+ l₂) : l₁ <:+: l₂ := by
  obtain ⟨t, ht⟩ := h
  exact ⟨t, [], by simp [ht]⟩

theorem eq_nil_of_pfx_nil {l : List Char} (h : l <+: []) : l = [] := by
  obtain ⟨t, ht⟩ := h
  exact List.append_eq_nil.mp ht |>.1

theorem splitFirst_sound (pat : List Char) :
    ∀ (s pre post : List Char), splitFirst pat s = some (pre, post) →
      s = pre ++ pat ++ post := by
  intro s
  induction s with
  | nil =>
    intro pre post h
    simp only [splitFirst] at h
    split at h
    · rename_i hp
      have hpp : pat = [] :=
        eq_nil_of_pfx_nil ((pfx_iff_isPrefixOf pat []).mp hp)
      cases h
      simp [hpp]
    · cases h
  | cons c cs ih =>
    intro pre post h
    simp only [splitFirst] at h
    split at h
    · rename_i hp
      obtain ⟨t, ht⟩ := (pfx_iff_isPrefixOf pat (c :: cs)).mp hp
      cases h
      simp only [List.nil_append]
      rw [← ht, List.drop_left]
    · revert h
      cases hm : splitFirst pat cs with
      | none => intro h; cases h
      | some pq =>
        obtain ⟨p, q⟩ := pq
        intro h
        simp only [Option.some.injEq, Prod.mk.injEq] at h
        obtain ⟨h1, h2⟩ := h
        subst h1
        subst h2
        have hcs := ih p q hm
        simp [hcs]

theorem splitFirst_isSome_of_occurs (pat : List Char) :
    ∀ (u v : List Char), (splitFirst pat (u ++ (pat ++ v))).isSome := by
  intro u
  induction u with
  | nil =>
    intro v
    simp only [List.nil_append]
    cases hs : pat ++ v with
    | nil =>
      have hp : pat = [] := by
        cases pat with
        | nil => rfl
        | cons a l => simp at hs
      subst hp
      simp [splitFirst]
    | cons c cs =>
      simp only [splitFirst]
      rw [if_pos]
      · simp
      · rw [← hs]
        exact (pfx_iff_isPrefixOf pat (pat ++ v)).mpr ⟨v, rfl⟩
  | cons c u ih =>
    intro v
    simp only [List.cons_append]
    simp only [splitFirst]
    split
    · simp
    · cases hm : splitFirst pat (u ++ (pat ++ v)) with
      | none =>
        have hs := ih v
        rw [hm] at hs
        simp at hs
      | some pq => simp [hm]

theorem splitFirst_eq_none_iff (pat s : List Char) :
    splitFirst pat s = none ↔ ¬ pat <:+: s := by
  constructor
  · intro h hinf
    obtain ⟨u, v, huv⟩ := hinf
    have hs := splitFirst_isSome_of_occurs pat u v
    rw [List.append_assoc] at huv
    rw [huv, h] at hs
    simp at hs
  · intro h
    cases hm : splitFirst pat s with
    | none => rfl
    | some pq =>
      obtain ⟨p, q⟩ := pq
      have hsound := splitFirst_sound pat s p q hm
      exact absurd ⟨p, q, hsound.symm⟩ h

theorem splitFirst_of_pfx (pat s : List Char) (hne : pat ≠ []) (hp : pat <+: s) :
    splitFirst pat s = some ([], s.drop pat.length) := by
  cases s with
  | nil => exact absurd (eq_nil_of_pfx_nil hp) hne
  | cons c cs =>
    simp only [splitFirst]
    rw [if_pos ((pfx_iff_isPrefixOf pat (c :: cs)).mpr hp)]

theorem splitFirst_at_boundary (pat : List Char) (hne : pat ≠ []) :
    ∀ (a r : List Char), ¬ pat <:+: (a ++ pat.take (pat.length - 1)) →
      splitFirst pat (a ++ (pat ++ r)) = some (a, r) := by
  intro a
  induction a with
  | nil =>
    intro r _
    rw [List.nil_append, splitFirst_of_pfx pat (pat ++ r) hne ⟨r, rfl⟩, List.drop_left]
  | cons c a' ih =>
    intro r h
    simp only [List.cons_append, splitFirst]
    simp only [List.append_eq]
    rw [if_neg, ih r (fun hinf => h (by rw [List.cons_append]; exact List.infix_cons hinf))]
    intro hp
    apply h
    have hpfx := (pfx_iff_isPrefixOf pat _).mp hp
    have hsplit : c :: (a' ++ (pat ++ r)) =
        ((c :: a') ++ pat.take (pat.length - 1)) ++ (pat.drop (pat.length - 1) ++ r) := by
      simp only [List.cons_append, List.append_assoc]
      rw [← List.append_assoc (pat.take (pat.length - 1)) (pat.drop (pat.length - 1)) r,
        List.take_append_drop]
    obtain ⟨t, ht⟩ := hpfx
    have htake : ((c :: a') ++ pat.take (pat.length - 1)).take pat.length = pat := by
      have h1 : (pat ++ t).take pat.length = pat := List.take_left pat t
      rw [ht, hsplit, List.take_append_of_le_length] at h1
      · exact h1
      · have hn : 0 < pat.length := List.length_pos.mpr hne
        simp only [List.length_append, List.length_cons, List.length_take]
        omega
    apply infix_of_pfx
    show pat <+: (c :: a') ++ pat.take (pat.length - 1)
    conv_lhs => rw [← htake]
    exact pfx_of_take pat.length ((c :: a') ++ pat.take (pat.length - 1))

theorem not_occurs_append_take (pat : List Char) (hne : pat ≠ []) (hbf : borderFree pat)
    (a : List Char) (ha : ¬ pat <:+: a) :
    ¬ pat <:+: (a ++ pat.take (pat.length - 1)) := by
  rintro ⟨u, v, huv⟩
  have hn : 0 < pat.length := List.length_pos.mpr hne
  have hlen : u.length + pat.length + v.length = a.length + (pat.length - 1) := by
    have hc := congrArg List.length huv
    simp only [List.length_append, List.length_take] at hc
    omega
  by_cases hcase : u.length + pat.length ≤ a.length
  · apply ha
    have h1 : (u ++ (pat ++ v)).take a.length = a := by
      have h0 := List.take_left a (pat.take (pat.length - 1))
      rw [← huv] at h0
      simpa [List.append_assoc] using h0
    have h2 : a.length = u.length + (pat.length + (a.length - u.length - pat.length)) := by omega
    rw [h2, List.take_append, List.take_append, ← List.append_assoc] at h1
    exact ⟨u, v.take (a.length - u.length - pat.length), h1⟩
  · set k := u.length + pat.length - a.length with hk
    have hk1 : 0 < k := by omega
    have hk2 : k < pat.length := by omega
    have hdrop : (u ++ (pat ++ v)).drop a.length = pat.take (pat.length - 1) := by
      have h0 := List.drop_left a (pat.take (pat.length - 1))
      rw [← huv] at h0
      simpa [List.append_assoc] using h0
    have h3 : a.length = u.length + (pat.length - k) := by omega
    rw [h3, List.drop_append, List.drop_append_of_le_length (by omega)] at hdrop
    have h5 : (pat.drop (pat.length - k)).length = k := by
      simp only [List.length_drop]
      omega
    have h4 : (pat.drop (pat.length - k) ++ v).take k = (pat.take (pat.length - 1)).take k := by
      rw [hdrop]
    rw [List.take_left' h5, List.take_take,
      min_eq_left (by omega : k ≤ pat.length - 1)] at h4
    exact hbf k hk2 hk1 h4

theorem splitFirst_nil (pat : List Char) (hne : pat ≠ []) : splitFirst pat [] = none := by
  simp only [splitFirst]
  rw [if_neg]
  intro hp
  exact hne (eq_nil_of_pfx_nil ((pfx_iff_isPrefixOf pat []).mp hp))

theorem splitFirst_shrinks (pat s pre post : List Char) (hne : pat ≠ [])
    (h : splitFirst pat s = some (pre, post)) : post.length < s.length := by
  have hs := splitFirst_sound pat s pre post h
  have hl := congrArg List.length hs
  simp only [List.length_append] at hl
  have hn : 0 < pat.length := List.length_pos.mpr hne
  omega

theorem extractThinkAux_no_open (f : Nat) (s : List Char) (h : ¬ openTag <:+: s) :
    extractThinkAux f s = ([], s) := by
  cases f with
  | zero => rfl
  | succ g =>
    simp only [extractThinkAux]
    rw [(splitFirst_eq_none_iff openTag s).mpr h]

theorem extractThinkAux_succ_noclose (f : Nat) (s pre rest : List Char)
    (h1 : splitFirst openTag s = some (pre, rest))
    (h2 : splitFirst closeTag rest = none) :
    extractThinkAux (f + 1) s = ([], s) := by
  simp only [extractThinkAux, h1, h2]

theorem extractThinkAux_succ_some (f : Nat) (s pre rest inner post : List Char)
    (h1 : splitFirst openTag s = some (pre, rest))
    (h2 : splitFirst closeTag rest = some (inner, post)) :
    extractThinkAux (f + 1) s =
      (inner :: (extractThinkAux f post).1, pre ++ (extractThinkAux f post).2) := by
  simp only [extractThinkAux, h1, h2]

theorem extractThinkAux_fuel : ∀ (f₁ f₂ : Nat) (s : List Char),
    s.length ≤ f₁ → s.length ≤ f₂ → extractThinkAux f₁ s = extractThinkAux f₂ s := by
  intro f₁
  induction f₁ with
  | zero =>
    intro f₂ s h1 _
    have hs : s = [] := List.eq_nil_of_length_eq_zero (Nat.le_zero.mp h1)
    subst hs
    rw [extractThinkAux_no_open f₂ [] (by decide)]
    rfl
  | succ f ih =>
    intro f₂ s h1 h2
    cases f₂ with
    | zero =>
      have hs : s = [] := List.eq_nil_of_length_eq_zero (Nat.le_zero.mp h2)
      subst hs
      rw [extractThinkAux_no_open (f + 1) [] (by decide)]
      rfl
    | succ g =>
      cases hm : splitFirst openTag s with
      | none =>
        have hno : ¬ openTag <:+: s := (splitFirst_eq_none_iff openTag s).mp hm
        rw [extractThinkAux_no_open (f + 1) s hno, extractThinkAux_no_open (g + 1) s hno]
      | some pr =>
        obtain ⟨pre, rest⟩ := pr
        cases hm2 : splitFirst closeTag rest with
        | none =>
          rw [extractThinkAux_succ_noclose f s pre rest hm hm2,
            extractThinkAux_succ_noclose g s pre rest hm hm2]
        | some ip =>
          obtain ⟨inner, post⟩ := ip
          have hr : rest.length < s.length :=
            splitFirst_shrinks openTag s pre rest (by decide) hm
          have hp : post.length < rest.length :=
            splitFirst_shrinks closeTag rest inner post (by decide) hm2
          rw [extractThinkAux_succ_some f s pre rest inner post hm hm2,
            extractThinkAux_succ_some g s pre rest inner post hm hm2,
            ih g post (by omega) (by omega)]

theorem extractThink_assemble :
    ∀ (segs : List (List Char × List Char)) (tail : List Char),
      (∀ p ∈ segs, tagFree p.1 ∧ tagFree p.2) → tagFree tail →
      extractThink (assemble segs tail) = (segs.map Prod.snd, gapsJoin segs tail) := by
  intro segs
  induction segs with
  | nil =>
    intro tail _ htail
    show extractThinkAux tail.length tail = ([], tail)
    exact extractThinkAux_no_open tail.length tail htail.1
  | cons gt rest ih =>
    obtain ⟨g, t⟩ := gt
    intro tail hsegs htail
    have hg : tagFree g := (hsegs (g, t) (by simp)).1
    have ht : tagFree t := (hsegs (g, t) (by simp)).2
    have hrest : ∀ p ∈ rest, tagFree p.1 ∧ tagFree p.2 := fun p hp => hsegs p (by simp [hp])
    have h1 : splitFirst openTag (assemble ((g, t) :: rest) tail) =
        some (g, t ++ (closeTag ++ assemble rest tail)) := by
      show splitFirst openTag (g ++ (openTag ++ (t ++ (closeTag ++ assemble rest tail)))) = _
      exact splitFirst_at_boundary openTag (by decide) g _
        (not_occurs_append_take openTag (by decide) (by decide) g hg.1)
    have h2 : splitFirst closeTag (t ++ (closeTag ++ assemble rest tail)) =
        some (t, assemble rest tail) :=
      splitFirst_at_boundary closeTag (by decide) t _
        (not_occurs_append_take closeTag (by decide) (by decide) t ht.2)
    have ho : openTag.length = 7 := by decide
    have hc : closeTag.length = 8 := by decide
    have hlen : (assemble ((g, t) :: rest) tail).length =
        g.length + (7 + (t.length + (8 + (assemble rest tail).length))) := by
      show (g ++ (openTag ++ (t ++ (closeTag ++ assemble rest tail)))).length = _
      simp [List.length_append, ho, hc]
    obtain ⟨m, hm⟩ : ∃ m, (assemble ((g, t) :: rest) tail).length = m + 1 :=
      ⟨(assemble ((g, t) :: rest) tail).length - 1, by omega⟩
    unfold extractThink
    rw [hm, extractThinkAux_succ_some m _ g _ t _ h1 h2]
    have hle : (assemble rest tail).length ≤ m := by omega
    rw [extractThinkAux_fuel m (assemble rest tail).length (assemble rest tail) hle (le_refl _)]
    have hrec : extractThinkAux (assemble rest tail).length (assemble rest tail) =
        extractThink (assemble rest tail) := rfl
    rw [hrec, ih tail hrest htail]
    rfl

theorem tagFree_of_occurs {x y : List Char} (h : x <:+: y) (hy : tagFree y) : tagFree x :=
  ⟨fun hi => hy.1 (List.IsInfix.trans hi h), fun hi => hy.2 (List.IsInfix.trans hi h)⟩

theorem tagFree_cons {c : Char} {cs : List Char} (h : tagFree (c :: cs)) : tagFree cs :=
  ⟨fun hi => h.1 (List.infix_cons hi), fun hi => h.2 (List.infix_cons hi)⟩

theorem removeTagsAux_tagFree : ∀ (f : Nat) (s : List Char), s.length ≤ f → tagFree s →
    removeTagsAux f s = s := by
  intro f
  induction f with
  | zero => intro s _ _; rfl
  | succ g ih =>
    intro s hs htf
    cases s with
    | nil => rfl
    | cons c cs =>
      have hnc : ¬ (closeTag.isPrefixOf (c :: cs) = true) := fun hp =>
        htf.2 (infix_of_pfx ((pfx_iff_isPrefixOf closeTag (c :: cs)).mp hp))
      have hno : ¬ (openTag.isPrefixOf (c :: cs) = true) := fun hp =>
        htf.1 (infix_of_pfx ((pfx_iff_isPrefixOf openTag (c :: cs)).mp hp))
      have hlen : cs.length ≤ g := by
        simp only [List.length_cons] at hs
        omega
      simp only [removeTagsAux]
      rw [if_neg hnc, if_neg hno, ih cs hlen (tagFree_cons htf)]

theorem removeTags_tagFree (s : List Char) (h : tagFree s) : removeTags s = s :=
  removeTagsAux_tagFree s.length s (le_refl _) h

theorem stripWS_occurs (s : List Char) : stripWS s <:+: s := by
  have h1 : s.dropWhile isPySpace <:+ s := List.dropWhile_suffix isPySpace
  have h2 : (s.dropWhile isPySpace).reverse.dropWhile isPySpace <:+
      (s.dropWhile isPySpace).reverse := List.dropWhile_suffix isPySpace
  have h3 : stripWS s <+: s.dropWhile isPySpace := by
    rw [← List.reverse_suffix]
    simpa [stripWS] using h2
  exact List.IsInfix.trans (infix_of_pfx h3) (infix_of_sfx h1)

theorem tagFree_stripWS {s : List Char} (h : tagFree s) : tagFree (stripWS s) :=
  tagFree_of_occurs (stripWS_occurs s) h

theorem dropWhile_head_false (p : Char → Bool) : ∀ (l : List Char) (c : Char),
    (l.dropWhile p).head? = some c → p c = false := by
  intro l
  induction l with
  | nil => intro c h; simp at h
  | cons a l' ih =>
    intro c h
    rw [List.dropWhile_cons] at h
    by_cases hp : p a = true
    · rw [if_pos hp] at h
      exact ih c h
    · rw [if_neg hp] at h
      simp only [List.head?_cons, Option.some.injEq] at h
      subst h
      simp at hp
      exact hp

theorem dropWhile_eq_self_of_head (p : Char → Bool) (l : List Char)
    (h : ∀ c, l.head? = some c → p c = false) : l.dropWhile p = l := by
  cases l with
  | nil => rfl
  | cons a l' =>
    rw [List.dropWhile_cons, if_neg]
    simp [h a rfl]

theorem getLast?_dropWhile (p : Char → Bool) (l : List Char) (c : Char)
    (h : (l.dropWhile p).getLast? = some c) : l.getLast? = some c := by
  obtain ⟨w, hw⟩ := List.dropWhile_suffix p (l := l)
  rw [← hw, List.getLast?_append, h]
  rfl

theorem stripWS_eq_self (s : List Char)
    (h1 : ∀ c, s.head? = some c → isPySpace c = false)
    (h2 : ∀ c, s.getLast? = some c → isPySpace c = false) : stripWS s = s := by
  unfold stripWS
  rw [dropWhile_eq_self_of_head _ _ h1]
  rw [dropWhile_eq_self_of_head _ _ (fun c hc => h2 c (by rwa [← List.head?_reverse]))]
  exact List.reverse_reverse s

theorem stripWS_head_good (s : List Char) :
    ∀ c, (stripWS s).head? = some c → isPySpace c = false := by
  intro c hc
  rw [show stripWS s = ((s.dropWhile isPySpace).reverse.dropWhile isPySpace).reverse from rfl,
    List.head?_reverse] at hc
  have h1 := getLast?_dropWhile isPySpace (s.dropWhile isPySpace).reverse c hc
  rw [List.getLast?_eq_head?_reverse, List.reverse_reverse] at h1
  exact dropWhile_head_false isPySpace s c h1

theorem stripWS_last_good (s : List Char) :
    ∀ c, (stripWS s).getLast? = some c → isPySpace c = false := by
  intro c hc
  rw [show stripWS s = ((s.dropWhile isPySpace).reverse.dropWhile isPySpace).reverse from rfl,
    List.getLast?_eq_head?_reverse, List.reverse_reverse] at hc
  exact dropWhile_head_false isPySpace (s.dropWhile isPySpace).reverse c hc

theorem stripWS_idem (s : List Char) : stripWS (stripWS s) = stripWS s :=
  stripWS_eq_self (stripWS s) (stripWS_head_good s) (stripWS_last_good s)

theorem format_response_of_tagFree (s : List Char) (h1 : ¬ openTag <:+: s)
    (h2 : ¬ closeTag <:+: s) :
    format_response s = { thinking := [], main_response := stripWS s } := by
  have he : extractThink s = ([], s) := extractThinkAux_no_open s.length s h1
  simp only [format_response, he, removeTags_tagFree s ⟨h1, h2⟩]

/-- C1 is false as stated: the input below decomposes into exactly two
well-formed, non-nested think pairs (inner text "x" each) separated by
tag-free segments, yet `format_response` returns a `main_response` that
contains a removed span — deleting the spans concatenates the surrounding
text into a brand-new `<think>x</think>`. -/
theorem C1_counterexample :
    ("<th<thi<think>x</think>nk>ink>x</th<thi<think>x</think>nk>ink>".data =
      assemble [("<th<thi".data, "x".data), ("nk>ink>x</th<thi".data, "x".data)]
        "nk>ink>".data) ∧
    (∀ p ∈ [("<th<thi".data, "x".data), ("nk>ink>x</th<thi".data, "x".data)],
      tagFree p.1 ∧ tagFree p.2) ∧
    tagFree "nk>ink>".data ∧
    (format_response
      "<th<thi<think>x</think>nk>ink>x</th<thi<think>x</think>nk>ink>".data).thinking =
      ["x".data, "x".data] ∧
    (openTag ++ ("x".data ++ closeTag)) <:+:
      (format_response
        "<th<thi<think>x</think>nk>ink>x</th<thi<think>x</think>nk>ink>".data).main_response :=
  ⟨by decide, by decide, by decide, by decide, by decide⟩

/-- C1 (amended): for every input decomposing into n well-formed, non-nested
think pairs separated by tag-free segments, `format_response` returns
exactly the n inner texts, untrimmed and in left-to-right order; the
main response is the segment concatenation with stray tags removed and
trimmed; and — provided that concatenation is itself free of think tags
(span deletion can otherwise concatenate adjacent text into new tags) —
the main response contains none of the removed spans. -/
theorem C1_amended (segs : List (List Char × List Char)) (tail : List Char)
    (hsegs : ∀ p ∈ segs, tagFree p.1 ∧ tagFree p.2) (htail : tagFree tail) :
    (format_response (assemble segs tail)).thinking = segs.map Prod.snd ∧
    (format_response (assemble segs tail)).main_response =
      stripWS (removeTags (gapsJoin segs tail)) ∧
    (tagFree (gapsJoin segs tail) → ∀ t ∈ segs.map Prod.snd,
      ¬ (openTag ++ (t ++ closeTag)) <:+:
        (format_response (assemble segs tail)).main_response) := by
  have he := extractThink_assemble segs tail hsegs htail
  refine ⟨by simp [format_response, he], by simp [format_response, he], ?_⟩
  intro hjoin t _ hspan
  have hmain : (format_response (assemble segs tail)).main_response =
      stripWS (gapsJoin segs tail) := by
    simp [format_response, he, removeTags_tagFree _ hjoin]
  have htf : tagFree (stripWS (gapsJoin segs tail)) := tagFree_stripWS hjoin
  rw [hmain] at hspan
  exact htf.1 (List.IsInfix.trans ⟨[], t ++ closeTag, by simp⟩ hspan)

/-- Witness for C1 (amended) at a concrete decomposition with one pair. -/
theorem C1_amended_witness :
    (format_response (assemble [("A ".data, "th1".data)] " B".data)).thinking =
      ["th1".data] ∧
    ¬ (openTag ++ ("th1".data ++ closeTag)) <:+:
      (format_response (assemble [("A ".data, "th1".data)] " B".data)).main_response := by
  have h := C1_amended [("A ".data, "th1".data)] " B".data (by decide) (by decide)
  constructor
  · rw [h.1]
    decide
  · exact h.2.2 (by decide) "th1".data (by decide)

/-- C2 is false as stated: on input `<th<think>ink>` the single stray-tag
deletion pass concatenates `<th` and `ink>` into a new literal `<think>`,
which survives in `main_response`. -/
theorem C2_counterexample :
    openTag <:+: (format_response "<th<think>ink>".data).main_response := by decide

/-- C2 (amended): for every input decomposing into well-formed, non-nested
think pairs separated by tag-free segments whose concatenation is itself
tag-free, the returned `main_response` contains no literal `<think>` and no
literal `</think>` substring.  (Unrestricted inputs can violate this:
deletion may concatenate adjacent text into a new tag occurrence.) -/
theorem C2_amended (segs : List (List Char × List Char)) (tail : List Char)
    (hsegs : ∀ p ∈ segs, tagFree p.1 ∧ tagFree p.2) (htail : tagFree tail)
    (hjoin : tagFree (gapsJoin segs tail)) :
    ¬ openTag <:+: (format_response (assemble segs tail)).main_response ∧
    ¬ closeTag <:+: (format_response (assemble segs tail)).main_response := by
  have he := extractThink_assemble segs tail hsegs htail
  have hmain : (format_response (assemble segs tail)).main_response =
      stripWS (gapsJoin segs tail) := by
    simp [format_response, he, removeTags_tagFree _ hjoin]
  rw [hmain]
  exact tagFree_stripWS hjoin

/-- Witness for C2 (amended) at a concrete decomposition. -/
theorem C2_amended_witness :
    ¬ openTag <:+:
      (format_response (assemble [("a ".data, " r ".data)] " b".data)).main_response ∧
    ¬ closeTag <:+:
      (format_response (assemble [("a ".data, " r ".data)] " b".data)).main_response :=
  C2_amended [("a ".data, " r ".data)] " b".data (by decide) (by decide) (by decide)

/-- C3 is false as stated: `a</think>b` contains no `<think>` substring,
yet the cleanup pass deletes the stray `</think>`, so `main_response` is
`ab`, not the trimmed input. -/
theorem C3_counterexample :
    (¬ openTag <:+: "a</think>b".data) ∧
    (format_response "a</think>b".data).main_response ≠ stripWS "a</think>b".data :=
  ⟨by decide, by decide⟩

/-- C3 (amended): for every input containing no `<think>` *and no
`</think>`* substring, `format_response` returns an empty thinking sequence
and the input trimmed of leading/trailing whitespace. -/
theorem C3_amended (s : List Char) (h1 : ¬ openTag <:+: s) (h2 : ¬ closeTag <:+: s) :
    format_response s = { thinking := [], main_response := stripWS s } :=
  format_response_of_tagFree s h1 h2

/-- Witness for C3 (amended) at a concrete tag-free input. -/
theorem C3_amended_witness :
    (¬ openTag <:+: " hello ".data ∧ ¬ closeTag <:+: " hello ".data) ∧
    format_response " hello ".data = { thinking := [], main_response := "hello".data } :=
  ⟨⟨by decide, by decide⟩, by
    rw [C3_amended " hello ".data (by decide) (by decide)]
    decide⟩

/-- C9: formatting is idempotent on cleaned output — if the main response
of a formatted response contains no remaining think tags, formatting it
again returns it unchanged with an empty thinking sequence. -/
theorem C9_idempotent (s : List Char)
    (h1 : ¬ openTag <:+: (format_response s).main_response)
    (h2 : ¬ closeTag <:+: (format_response s).main_response) :
    format_response ((format_response s).main_response) =
      { thinking := [],
        main_response := (format_response s).main_response } := by
  rw [format_response_of_tagFree _ h1 h2]
  have hm : (format_response s).main_response =
      stripWS (removeTags (extractThink s).2) := rfl
  rw [hm, stripWS_idem]

/-- Witness for C9 at a concrete input containing one think pair. -/
theorem C9_idempotent_witness :
    (¬ openTag <:+: (format_response " <think>ab</think> hi ".data).main_response ∧
     ¬ closeTag <:+: (format_response " <think>ab</think> hi ".data).main_response) ∧
    format_response ((format_response " <think>ab</think> hi ".data).main_response) =
      { thinking := [],
        main_response := (format_response " <think>ab</think> hi ".data).main_response } :=
  ⟨⟨by decide, by decide⟩,
    C9_idempotent " <think>ab</think> hi ".data (by decide) (by decide)⟩

theorem length_dropWhile_le' (p : Char → Bool) (l : List Char) :
    (l.dropWhile p).length ≤ l.length := by
  obtain ⟨w, hw⟩ := List.dropWhile_suffix p (l := l)
  have hl := congrArg List.length hw
  simp only [List.length_append] at hl
  omega

theorem countTokens_false (l : List Char) :
    countTokens false l = countTokens true (l.dropWhile (fun x => !isPySpace x)) := by
  induction l with
  | nil => rfl
  | cons x xs ih =>
    by_cases hx : isPySpace x = true
    · rw [List.dropWhile_cons, if_neg (by simp [hx])]
      simp [countTokens, hx]
    · have hx' : isPySpace x = false := by simpa using hx
      rw [List.dropWhile_cons, if_pos (by simp [hx'])]
      simpa [countTokens, hx'] using ih

theorem pySplitAux_length : ∀ (f : Nat) (s : List Char), s.length ≤ f →
    (pySplitAux f s).length = countTokens true s := by
  intro f
  induction f with
  | zero =>
    intro s hs
    have : s = [] := List.eq_nil_of_length_eq_zero (Nat.le_zero.mp hs)
    subst this
    rfl
  | succ g ih =>
    intro s hs
    cases s with
    | nil => rfl
    | cons c cs =>
      have hlen : cs.length ≤ g := by
        simp only [List.length_cons] at hs
        omega
      by_cases hc : isPySpace c = true
      · simp only [pySplitAux, if_pos hc, countTokens, hc]
        simp [ih cs hlen]
      · have hc' : isPySpace c = false := by simpa using hc
        have hdl : (cs.dropWhile (fun x => !isPySpace x)).length ≤ g :=
          le_trans (length_dropWhile_le' _ cs) hlen
        rw [show pySplitAux (g + 1) (c :: cs) =
            (c :: cs.takeWhile (fun x => !isPySpace x)) ::
              pySplitAux g (cs.dropWhile (fun x => !isPySpace x)) from by
          simp [pySplitAux, hc']]
        rw [show countTokens true (c :: cs) = 1 + countTokens false cs from by
          simp [countTokens, hc']]
        rw [List.length_cons, ih _ hdl, ← countTokens_false]
        omega

/-- C6: the statistics attached by `process_response` are computed on the
raw input string: `word_count` equals the number of whitespace-separated
tokens of the raw response and `character_count` equals its length; on the
empty string the processed result has empty main response, empty thinking
and zero statistics. -/
theorem C6_statistics (raw : List Char) :
    ((process_response raw).statistics.word_count = countTokens true raw ∧
     (process_response raw).statistics.character_count = raw.length) ∧
    process_response [] =
      { thinking := [], main_response := [],
        statistics := { word_count := 0, character_count := 0 } } := by
  refine ⟨⟨?_, rfl⟩, by decide⟩
  show (pySplit raw).length = countTokens true raw
  exact pySplitAux_length raw.length raw (le_refl _)

/-- C4: when the structured PDF build raises, `generate_pdf` returns the
output of `_create_fallback_pdf`, and (under the spec-modelled ReportLab
document build) that fallback always yields a non-empty byte
sequence containing the literal question and model-name strings. -/
theorem C4_fallback (now : List Char) (soup : List HNode)
    (content question model_name : List Char) :
    generate_pdf true now soup content question model_name =
      create_fallback_pdf content question model_name ∧
    generate_pdf true now soup content question model_name ≠ [] ∧
    question <:+: generate_pdf true now soup content question model_name ∧
    model_name <:+: generate_pdf true now soup content question model_name := by
  refine ⟨rfl, ?_, ?_, ?_⟩
  · show create_fallback_pdf content question model_name ≠ []
    intro h
    have hl := congrArg List.length h
    simp [create_fallback_pdf, docBuild, List.length_append] at hl
  · show question <:+: create_fallback_pdf content question model_name
    exact ⟨"%PDF-".data ++ "AI Assistant Response".data ++ ['\n'] ++ "Model: ".data ++
        model_name ++ ['\n'] ++ "Question: ".data,
      ['\n'] ++ "Response:".data ++ ['\n'] ++ content ++ ['\n'] ++ "%%EOF".data,
      by simp [create_fallback_pdf, docBuild, List.append_assoc]⟩
  · show model_name <:+: create_fallback_pdf content question model_name
    exact ⟨"%PDF-".data ++ "AI Assistant Response".data ++ ['\n'] ++ "Model: ".data,
      ['\n'] ++ "Question: ".data ++ question ++ ['\n'] ++ "Response:".data ++ ['\n'] ++
        content ++ ['\n'] ++ "%%EOF".data,
      by simp [create_fallback_pdf, docBuild, List.append_assoc]⟩

/-- C7 evidence of the code bug: `_add_header` contributes six flowables,
so the `len(story) <= 5` test of `_build_story` can never succeed and
`_process_raw_markdown` is unreachable.  For content `---` (markdown parse
yields only an `hr`, which is not a recognized block element) the story is
exactly the six header elements — no content block at all — while the
unreachable fallback would have produced the paragraph the spec promises. -/
theorem C7_code_bug (now question model_name : List Char) :
    process_html_elements [HNode.el "hr".data []] = [] ∧
    build_story now [HNode.el "hr".data []] "---".data question model_name =
      add_header now question model_name ∧
    (add_header now question model_name).length = 6 ∧
    process_raw_markdown "---".data = [PdfElem.paragraph "---".data StyleTag.body] := by
  have hempty : process_html_elements [HNode.el "hr".data []] = [] := by
    show processAll "[document]".data [HNode.el "hr".data []] = []
    rw [show processAll "[document]".data [HNode.el "hr".data []] =
        (if "hr".data ∈ targetNames then
          processElement "[document]".data "hr".data [] else []) ++
          processAll "hr".data [] ++ processAll "[document]".data [] from by
      simp [processAll]]
    rw [if_neg (by decide)]
    simp [processAll]
  refine ⟨hempty, ?_, rfl, ?_⟩
  · simp only [build_story, hempty, List.append_nil]
    rw [if_neg (by simp [add_header])]
  · decide

theorem processElement_p (parent : List Char) (children : List HNode) :
    processElement parent "p".data children =
      [PdfElem.paragraph (processParagraphText (HNode.el "p".data children))
        StyleTag.body] := by
  unfold processElement
  rw [if_neg (by decide), if_neg (by decide), if_neg (by decide), if_pos rfl]

theorem processElement_code_sep (parent : List Char) (children : List HNode)
    (h : parent ≠ "pre".data) :
    processElement parent "code".data children =
      [PdfElem.paragraph (courierWrap (getTexts children)) StyleTag.body] := by
  unfold processElement
  rw [if_neg (by decide), if_neg (by decide), if_neg (by decide), if_neg (by decide),
    if_neg (by decide), if_pos rfl, if_pos h]

theorem processAll_append (parent : List Char) : ∀ xs ys : List HNode,
    processAll parent (xs ++ ys) = processAll parent xs ++ processAll parent ys := by
  intro xs
  induction xs with
  | nil => intro ys; simp [processAll]
  | cons n xs' ih =>
    intro ys
    cases n with
    | txt s =>
      simp only [List.cons_append, processAll]
      exact ih ys
    | el name cs =>
      simp only [List.cons_append, processAll, ih ys, List.append_assoc]

/-- C8 is false as stated: for a paragraph containing an inline code span,
`_process_html_elements` emits the enclosing paragraph (with the literal
`<code>` markup still inside its text) and then, in addition, a separate
Courier paragraph block for the code span. -/
theorem C8_counterexample :
    process_html_elements
      [HNode.el "p".data
        [HNode.txt "a ".data, HNode.el "code".data [HNode.txt "x".data],
         HNode.txt " b".data]] =
      [PdfElem.paragraph "a <code>x</code> b".data StyleTag.body,
       PdfElem.paragraph (courierWrap "x".data) StyleTag.body] := by
  have hser : serialize (HNode.el "p".data
      [HNode.txt "a ".data, HNode.el "code".data [HNode.txt "x".data],
       HNode.txt " b".data]) = "<p>a <code>x</code> b</p>".data := by
    simp only [serialize, serializeList]
    decide
  have htext : processParagraphText (HNode.el "p".data
      [HNode.txt "a ".data, HNode.el "code".data [HNode.txt "x".data],
       HNode.txt " b".data]) = "a <code>x</code> b".data := by
    unfold processParagraphText
    rw [hser]
    decide
  show processAll "[document]".data _ = _
  rw [show processAll "[document]".data
      [HNode.el "p".data
        [HNode.txt "a ".data, HNode.el "code".data [HNode.txt "x".data],
         HNode.txt " b".data]] =
      (if "p".data ∈ targetNames then
        processElement "[document]".data "p".data
          [HNode.txt "a ".data, HNode.el "code".data [HNode.txt "x".data],
           HNode.txt " b".data] else []) ++
        processAll "p".data
          [HNode.txt "a ".data, HNode.el "code".data [HNode.txt "x".data],
           HNode.txt " b".data] ++ processAll "[document]".data [] from by
    simp [processAll]]
  rw [if_pos (by decide), processElement_p, htext]
  rw [show processAll "p".data
      [HNode.txt "a ".data, HNode.el "code".data [HNode.txt "x".data],
       HNode.txt " b".data] =
      (if "code".data ∈ targetNames then
        processElement "p".data "code".data [HNode.txt "x".data] else []) ++
        processAll "code".data [HNode.txt "x".data] ++
        processAll "p".data [HNode.txt " b".data] from by
    simp [processAll]]
  rw [if_pos (by decide), processElement_code_sep "p".data [HNode.txt "x".data] (by decide)]
  rw [show processAll "code".data [HNode.txt "x".data] = [] from by simp [processAll],
    show processAll "p".data [HNode.txt " b".data] = [] from by simp [processAll],
    show processAll "[document]".data ([] : List HNode) = [] from by simp [processAll],
    show getTexts [HNode.txt "x".data] = "x".data from by simp [getTexts]]
  simp

/-- C8 (amended): for every paragraph element containing an inline code
span (parent tag `p`, not `pre`), `_process_html_elements` emits the
enclosing paragraph block followed by an additional, separate
Courier-wrapped paragraph block for the code span; the code span is not
rendered inline-only. -/
theorem C8_amended (parent : List Char) (rest xs ys : List HNode) (c : List Char) :
    processAll parent
      (HNode.el "p".data (xs ++ (HNode.el "code".data [HNode.txt c] :: ys)) :: rest) =
      PdfElem.paragraph
        (processParagraphText
          (HNode.el "p".data (xs ++ (HNode.el "code".data [HNode.txt c] :: ys))))
        StyleTag.body ::
      (processAll "p".data xs ++
        (PdfElem.paragraph (courierWrap c) StyleTag.body ::
          (processAll "p".data ys ++ processAll parent rest))) := by
  rw [show processAll parent
      (HNode.el "p".data (xs ++ (HNode.el "code".data [HNode.txt c] :: ys)) :: rest) =
      (if "p".data ∈ targetNames then
        processElement parent "p".data (xs ++ (HNode.el "code".data [HNode.txt c] :: ys))
       else []) ++
        processAll "p".data (xs ++ (HNode.el "code".data [HNode.txt c] :: ys)) ++
        processAll parent rest from by simp [processAll]]
  rw [if_pos (by decide), processElement_p, processAll_append]
  rw [show processAll "p".data (HNode.el "code".data [HNode.txt c] :: ys) =
      (if "code".data ∈ targetNames then
        processElement "p".data "code".data [HNode.txt c] else []) ++
        processAll "code".data [HNode.txt c] ++ processAll "p".data ys from by
    simp [processAll]]
  rw [if_pos (by decide), processElement_code_sep "p".data [HNode.txt c] (by decide)]
  rw [show processAll "code".data [HNode.txt c] = [] from by simp [processAll],
    show getTexts [HNode.txt c] = c from by simp [getTexts]]
  simp [List.append_assoc]

/-- C5 evidence of the code bug: a POST failing with HTTP 500 and a
non-JSON body makes the error handler raise a JSONDecodeError from inside
the except block, so an exception escapes `get_response` instead of `None`
being returned; a 500 with a JSON array body raises AttributeError; the
local client also raises when the `detail` value is not a string; and a
2xx response whose body is not JSON returns `None`, not a string. -/
theorem C5_code_bug :
    cloud_get_response (.exn (.httpError 500 none)) = .error .jsonDecodeError ∧
    local_get_response (.exn (.httpError 500 none)) = .error .jsonDecodeError ∧
    cloud_get_response (.exn (.httpError 500 (some (.arr [])))) =
      .error .attributeError ∧
    local_get_response (.exn (.httpError 500 (some (.obj [("detail".data, .num 3)])))) =
      .error .attributeError ∧
    cloud_get_response (.success none) = .ok none ∧
    cloud_get_response (.exn .connectionError) = .ok none ∧
    cloud_get_response (.exn .timeout) = .ok none ∧
    cloud_get_response (.exn (.httpError 404 none)) = .ok none :=
  ⟨rfl, rfl, rfl, rfl, rfl, rfl, rfl, rfl⟩

/-- C10: for every decoded 2xx payload, `get_response` returns a string
and never `None`: the value of the `output` key when the payload is a
dictionary containing one (unchanged when already a string, its `str()`
rendering otherwise), and the `str()` rendering of the entire payload for
any other shape. -/
theorem C10_success_payload (p : JValue) :
    cloud_get_response (.success (some p)) = .ok (some (handle_api_response p)) ∧
    local_get_response (.success (some p)) = .ok (some (handle_api_response p)) ∧
    (∀ fs, p = .obj fs →
      (∀ v, lookupField fs "output".data = some v →
        handle_api_response p =
          (match v with | .str s => s | v' => pyStrOf v')) ∧
      (lookupField fs "output".data = none → handle_api_response p = pyStrOf p)) ∧
    ((∀ fs, p ≠ .obj fs) → handle_api_response p = pyStrOf p) := by
  refine ⟨rfl, rfl, ?_, ?_⟩
  · rintro fs rfl
    constructor
    · intro v hv
      cases v with
      | str s => simp [handle_api_response, hv]
      | null => simp [handle_api_response, hv]
      | bool b => simp [handle_api_response, hv]
      | num n => simp [handle_api_response, hv]
      | arr es => simp [handle_api_response, hv]
      | obj fs2 => simp [handle_api_response, hv]
    · intro hnone
      simp [handle_api_response, hnone]
  · intro h
    cases p with
    | obj fs => exact absurd rfl (h fs)
    | null => rfl
    | bool b => rfl
    | num n => rfl
    | str s => rfl
    | arr es => rfl

/-- Witness for C10 at two concrete payloads: a dictionary whose output
value is a number, and a bare array. -/
theorem C10_success_payload_witness :
    cloud_get_response (.success (some (JValue.obj [("output".data, JValue.num 7)]))) =
      .ok (some (pyStrOf (JValue.num 7))) ∧
    handle_api_response (JValue.arr []) = pyStrOf (JValue.arr []) := by
  have h := C10_success_payload (JValue.obj [("output".data, JValue.num 7)])
  have h2 := C10_success_payload (JValue.arr [])
  constructor
  · rw [h.1]
    have h3 := (h.2.2.1 _ rfl).1 (JValue.num 7) rfl
    rw [h3]
  · exact h2.2.2.2 (fun fs hfs => JValue.noConfusion hfs)
